import Mathlib

/-!
Shallow embedding of the WhatsApp broadcast backend's session/delivery/recovery
core, translated from:
  * src/services/whatsappService.ts  (phone normalization in sendMessage,
    batch loop in sendBulkMessages, createConnection, disconnect)
  * src/routes/messages.ts           (bulk campaign creation and the
    send-message queue worker's progress updates)
  * the MessageRecoveryService (savePendingMessage, processPendingMessages)

Stateful code is modelled by explicit state passing; the outcomes of awaited
external calls (transport client, auto-reply pipeline) are supplied by an
environment argument so that every branch of the source is a branch of the
model. JavaScript strings are modelled through their character lists
(`String.data`), so `s.replace(/\D/g, '')` is a filter, `s.startsWith(p)` is
`s.data.take p.length = p.data`, `s.substring(1)` is `s.data.drop 1`.
-/

namespace WB

/-! ## Message Formatter (whatsappService.sendMessage, both file variants)

The source computes `formattedNumber = phoneNumber.replace(/\D/g, '')`, then
applies an `if/else if` chain on the digit string, then appends `@c.us`. -/

/-- `phoneNumber.replace(/\D/g, '')`: keep only decimal digits. -/
def stripNonDigits (s : String) : String :=
  String.mk (s.data.filter Char.isDigit)

/-- The `if/else if` chain of `sendMessage` on the digit-only string:
`startsWith('91')` passes through, else a leading `'0'` is replaced by `91`,
else a 10-digit string gets `91` prefixed, else the string is unchanged (the
source's final `length > 10` branch also leaves the string unchanged, so the
fall-through and that branch coincide). -/
def formatNumber (d : String) : String :=
  if d.data.take 2 = ['9', '1'] then d
  else if d.data.take 1 = ['0'] then String.mk (['9', '1'] ++ d.data.drop 1)
  else if d.data.length = 10 then String.mk (['9', '1'] ++ d.data)
  else d

/-- `chatId = formattedNumber + '@c.us'` computed from the raw input. -/
def normalizePhone (phoneNumber : String) : String :=
  formatNumber (stripNonDigits phoneNumber) ++ "@c.us"

/-! ## sendBulkMessages batching (both file variants)

`for (let i = 0; i < contacts.length; i += batchSize)` with
`batchSize = 5` and `batch = contacts.slice(i, i + batchSize)`: the loop
takes the first five elements, recurses on the rest. -/

/-- The successive values of `contacts.slice(i, i + 5)` taken by the
`sendBulkMessages` loop, in order. -/
def batches5 {α : Type} : List α → List (List α)
  | [] => []
  | [a] => [[a]]
  | [a, b] => [[a, b]]
  | [a, b, c] => [[a, b, c]]
  | [a, b, c, d] => [[a, b, c, d]]
  | a :: b :: c :: d :: e :: rest => [a, b, c, d, e] :: batches5 rest

/-! ## Bulk campaign progress accounting (src/routes/messages.ts)

The `POST /api/messages/send-bulk` handler creates the `BulkMessage` with
`progress: { total: contacts.length, sent: 0, failed: 0, pending: contacts.length }`
(schema default `status: 'pending'`, no `completedAt`). The
`messageQueue.process('send-message')` worker then performs, per job outcome,
one atomic `BulkMessage.findByIdAndUpdate(id, { $inc: ... }, { new: true })`
— `{ 'progress.sent': 1, 'progress.pending': -1 }` on success,
`{ 'progress.failed': 1, 'progress.pending': -1 }` on the failure and on the
catch path — and, when the returned document has `progress.pending === 0`,
sets `status: 'completed', completedAt: new Date()`. A campaign's history is
modelled as the serialized trace of these atomic updates (MongoDB serializes
`findByIdAndUpdate`), counters as `Int` since nothing in the code prevents
`pending` from going negative under queue retries. -/

inductive CampaignStatus
  | pending | processing | completed | failed | cancelled
  deriving DecidableEq, Repr

structure Progress where
  total : Int
  sent : Int
  failed : Int
  pending : Int
  deriving DecidableEq, Repr

structure Campaign where
  progress : Progress
  status : CampaignStatus
  completedAt : Option Nat
  deriving DecidableEq, Repr

/-- The campaign document created by the `send-bulk` route for
`numContacts` verified contacts. -/
def newBulkMessage (numContacts : Nat) : Campaign :=
  { progress := { total := numContacts, sent := 0, failed := 0, pending := numContacts },
    status := .pending,
    completedAt := none }

/-- Which `$inc` a worker issues: the success path increments `sent`, the
failure path and the catch path increment `failed`; all decrement `pending`. -/
inductive JobUpdate
  | incSent | incFailed
  deriving DecidableEq, Repr

/-- The atomic `$inc` of one progress update. -/
def applyInc (p : Progress) : JobUpdate → Progress
  | .incSent => { p with sent := p.sent + 1, pending := p.pending - 1 }
  | .incFailed => { p with failed := p.failed + 1, pending := p.pending - 1 }

/-- One serialized progress update of the queue worker: the atomic `$inc`
(whose post-state the worker observes via `{ new: true }`), followed by the
worker's completion check `if (bulkMsg && bulkMsg.progress.pending === 0)`
which sets `status: 'completed', completedAt: new Date()`. -/
def processStep (c : Campaign) (u : JobUpdate) (now : Nat) : Campaign :=
  let p := applyInc c.progress u
  if p.pending = 0 then
    { progress := p, status := .completed, completedAt := some now }
  else
    { c with progress := p }

def runCampaignFrom (t : Nat) (c : Campaign) : List JobUpdate → Campaign
  | [] => c
  | u :: us => runCampaignFrom (t + 1) (processStep c u t) us

/-- The campaign state after a serialized trace of worker progress updates. -/
def runCampaign (c : Campaign) (us : List JobUpdate) : Campaign :=
  runCampaignFrom 0 c us

/-- How many updates of the trace observe `pending === 0` on the document
returned by their `$inc` — i.e. how many times the completed-transition
fires. -/
def completions (p : Progress) : List JobUpdate → Nat
  | [] => 0
  | u :: us =>
    (if (applyInc p u).pending = 0 then 1 else 0) + completions (applyInc p u) us

/-- The spec's progress invariant. -/
def progressInvariant (p : Progress) : Prop :=
  p.sent + p.failed + p.pending = p.total

/-! ## Message Recovery Pipeline (MessageRecoveryService)

`savePendingMessage` and `processPendingMessages` from the
MessageRecoveryService (the class concatenated into
src/services/autoReplyService.ts). The PendingMessage collection is a list of
records; document identity (`_id`) is the `pmId` field. Timestamp-only fields
set by the code (`lastAttemptAt`, `processedAt`) are elided; the auto-reply
pipeline and the transport send are external calls whose outcomes the
environment supplies per record. -/

inductive PMStatus
  | pending | processing | processed | failed
  deriving DecidableEq, Repr

structure PendingMsg where
  pmId : Nat
  userId : String
  phoneNumber : String
  message : String
  messageId : Option String
  receivedAt : Nat
  status : PMStatus
  processingAttempts : Nat
  errorMessage : Option String
  deriving DecidableEq, Repr

/-- The duplicate check of `savePendingMessage`:
`PendingMessage.findOne({ userId, messageId, status: { $in: ['pending', 'processing'] } })`. -/
def isDupPending (uid mid : String) (r : PendingMsg) : Bool :=
  r.userId == uid && r.messageId == some mid &&
    (r.status == PMStatus.pending || r.status == PMStatus.processing)

/-- The fresh document built by `savePendingMessage`:
`new PendingMessage({ userId, phoneNumber, contactId, message, messageId,
receivedAt: new Date(), status: 'pending', processingAttempts: 0 })`. -/
def savedRec (uid phone msg : String) (mid : Option String) (now newId : Nat) : PendingMsg :=
  { pmId := newId, userId := uid, phoneNumber := phone, message := msg,
    messageId := mid, receivedAt := now, status := .pending,
    processingAttempts := 0, errorMessage := none }

/-- `savePendingMessage(userId, phoneNumber, message, messageId?)`: when a
`messageId` is given and a pending/processing record for
`(userId, messageId)` already exists, return `true` without inserting;
otherwise insert a fresh record with `status: 'pending'` and
`processingAttempts: 0`. `now` is `new Date()`, `newId` the inserted
document's identity. -/
def savePendingMessage (uid phone msg : String) (mid : Option String)
    (now newId : Nat) (db : List PendingMsg) : Bool × List PendingMsg :=
  match mid with
  | some m =>
    if db.any (isDupPending uid m) then (true, db)
    else (true, db ++ [savedRec uid phone msg (some m) now newId])
  | none =>
    (true, db ++ [savedRec uid phone msg none now newId])

/-! ### processPendingMessages

`PendingMessage.find({ userId, status: 'pending' }).sort({ receivedAt: 1 })`
is a filter followed by a sort on `receivedAt`; the `messagesByPhone` map is
built in insertion order (JS `Map`), so its keys are the distinct phone
numbers in order of first appearance, and each group is the sorted list
filtered to that phone. Each message is marked `processing` (attempts + 1),
routed through `autoReplyService.processIncomingMessage` /
`sendAutoReply` (outcomes supplied by the environment, keyed by document
id), then saved as `processed`, or as `failed` with the error captured when
the pipeline throws. The per-tenant guard is the `recoveryInProgress` map:
set after the re-entrancy check, deleted in the `finally` block. -/

/-- Insertion step of the `receivedAt: 1` sort. -/
def insertLe (m : PendingMsg) : List PendingMsg → List PendingMsg
  | [] => [m]
  | x :: xs => if x.receivedAt ≤ m.receivedAt then x :: insertLe m xs else m :: x :: xs

/-- `sort({ receivedAt: 1 })` as a sort on the `receivedAt` field. -/
def sortByReceivedAt : List PendingMsg → List PendingMsg
  | [] => []
  | x :: xs => insertLe x (sortByReceivedAt xs)

/-- Distinct keys in order of first appearance: the key set of the JS `Map`
built by the grouping loop. -/
def uniqueKeysGo (seen : List String) : List String → List String
  | [] => []
  | x :: xs => if seen.contains x then uniqueKeysGo seen xs else x :: uniqueKeysGo (x :: seen) xs

def uniqueKeys (l : List String) : List String := uniqueKeysGo [] l

/-- The group of one phone number: the sorted pending list filtered to it. -/
def groupOf (p : String) (msgs : List PendingMsg) : List PendingMsg :=
  msgs.filter (fun r => r.phoneNumber == p)

/-- Outcome of routing one message through the external auto-reply pipeline:
`ok shouldReply sendOk` when `processIncomingMessage` returns (and, if a
reply is due, whether `sendAutoReply` succeeded), `procError` when the
processing throws. -/
inductive MsgOutcome
  | ok (shouldReply sendOk : Bool)
  | procError (e : String)
  deriving DecidableEq, Repr

structure RecoveryEnv where
  outcome : Nat → MsgOutcome
  findThrows : Bool

structure RecoveryResult where
  totalPending : Nat
  processed : Nat
  replied : Nat
  failed : Nat
  errors : List String
  deriving DecidableEq, Repr

/-- The `result` object as initialized at the top of `processPendingMessages`. -/
def emptyResult : RecoveryResult := ⟨0, 0, 0, 0, []⟩

/-- `recoveryInProgress` flags plus the PendingMessage collection. -/
structure RecoveryState where
  flags : List String
  db : List PendingMsg
  deriving DecidableEq, Repr

/-- Loop accumulator: records as saved (in save order), the messages routed
to the pipeline (in routing order), and the running counters. -/
structure RunAcc where
  recs : List PendingMsg
  trace : List PendingMsg
  processed : Nat
  replied : Nat
  failed : Nat
  errors : List String
  deriving DecidableEq, Repr

def initAcc : RunAcc := ⟨[], [], 0, 0, 0, []⟩

/-- The record as it stands after its iteration of the inner loop:
`processing` mark with attempts incremented, then `processed` (with
`errorMessage` set to the send error when a due reply failed to send) or
`failed` with the thrown error captured. -/
def finalRecord (env : RecoveryEnv) (m : PendingMsg) : PendingMsg :=
  match env.outcome m.pmId with
  | .ok sr so =>
    { m with
      status := .processed,
      processingAttempts := m.processingAttempts + 1,
      errorMessage := if sr && !so then some "send-failed" else m.errorMessage }
  | .procError e =>
    { m with
      status := .failed,
      processingAttempts := m.processingAttempts + 1,
      errorMessage := some e }

/-- One iteration of the inner `for (const pendingMsg of messages)` loop. -/
def stepMsg (env : RecoveryEnv) (acc : RunAcc) (m : PendingMsg) : RunAcc :=
  let m1 : PendingMsg :=
    { m with status := PMStatus.processing, processingAttempts := m.processingAttempts + 1 }
  match env.outcome m.pmId with
  | .ok sr so =>
    let m2 : PendingMsg :=
      { m1 with
        status := PMStatus.processed,
        errorMessage := if sr && !so then some "send-failed" else m1.errorMessage }
    { recs := acc.recs ++ [m2], trace := acc.trace ++ [m],
      processed := acc.processed + 1,
      replied := acc.replied + (if sr && so then 1 else 0),
      failed := acc.failed, errors := acc.errors }
  | .procError e =>
    let m2 : PendingMsg := { m1 with status := PMStatus.failed, errorMessage := some e }
    { recs := acc.recs ++ [m2], trace := acc.trace ++ [m],
      processed := acc.processed, replied := acc.replied,
      failed := acc.failed + 1,
      errors := acc.errors ++ [m.phoneNumber ++ ": " ++ e] }

/-- The two nested loops: over phone groups in first-appearance key order,
and within a group over its messages in sorted order. -/
def processAllGroups (env : RecoveryEnv) (pending : List PendingMsg) : RunAcc :=
  (uniqueKeys (pending.map (fun r => r.phoneNumber))).foldl
    (fun acc p => (groupOf p pending).foldl (stepMsg env) acc) initAcc

/-- `PendingMessage.find({ userId, status: 'pending' })`. -/
def pendingFor (uid : String) (db : List PendingMsg) : List PendingMsg :=
  db.filter (fun r => r.userId == uid && r.status == PMStatus.pending)

/-- Each `pendingMsg.save()` writes the mutated document back by identity. -/
def updateDb (recs db : List PendingMsg) : List PendingMsg :=
  db.map (fun r =>
    match recs.find? (fun r2 => r2.pmId == r.pmId) with
    | some r2 => r2
    | none => r)

structure PPMOut where
  result : RecoveryResult
  state : RecoveryState
  trace : List PendingMsg
  recs : List PendingMsg
  deriving DecidableEq, Repr

/-- `processPendingMessages(userId)`: re-entrancy check on the
`recoveryInProgress` flag (early return of the zero result), set the flag,
load and sort the pending records (the environment's `findThrows` is the
catch path of the outer `try` — the error is pushed onto `result.errors`
and the partial result returned), early return when none, otherwise run the
grouped processing loops; the `finally` clause deletes the flag on every
path that set it. -/
def processPendingMessages (uid : String) (env : RecoveryEnv) (st : RecoveryState) : PPMOut :=
  if st.flags.contains uid then
    { result := emptyResult, state := st, trace := [], recs := [] }
  else
    let flags1 := uid :: st.flags
    if env.findThrows then
      { result := { emptyResult with errors := ["recovery-error"] },
        state := { st with flags := flags1.erase uid }, trace := [], recs := [] }
    else
      let pending := sortByReceivedAt (pendingFor uid st.db)
      if pending.length = 0 then
        { result := emptyResult,
          state := { st with flags := flags1.erase uid }, trace := [], recs := [] }
      else
        let acc := processAllGroups env pending
        { result := { totalPending := pending.length, processed := acc.processed,
                      replied := acc.replied, failed := acc.failed, errors := acc.errors },
          state := { flags := flags1.erase uid, db := updateDb acc.recs st.db },
          trace := acc.trace, recs := acc.recs }

/-- A fresh pending record (shorthand used by concrete instances). -/
def mkPending (id : Nat) (uid phone msg : String) (t : Nat) : PendingMsg :=
  { pmId := id, userId := uid, phoneNumber := phone, message := msg, messageId := none,
    receivedAt := t, status := .pending, processingAttempts := 0, errorMessage := none }

/-- Sample collection: three pending messages of one tenant across two phone
numbers (the spec's recovery example). -/
def sampleDb : List PendingMsg :=
  [mkPending 1 "u1" "p1" "a" 1, mkPending 2 "u1" "p2" "b" 2, mkPending 3 "u1" "p1" "c" 3]

/-- Sample environment: processing of record 1 throws, the rest succeed with
a reply sent. -/
def sampleEnv : RecoveryEnv :=
  { outcome := fun id => if id = 1 then MsgOutcome.procError "boom" else MsgOutcome.ok true true,
    findThrows := false }

/-! ## Connection attempt lock (whatsappService.createConnection, disconnect)

The service state carries the `connections` map, the `connectionAttempts`
lock map (a per-user boolean, modelled by the list of locked user ids), the
`messageListenersSetup` set, the on-disk session directories, and a counter
of transport handles created so far. `createConnection` is modelled for both
file variants; the branch conditions observed after an `await` (reconnect
outcome, `connectionState === 'connecting'`, the QR appearing, the client
initialize throwing, the QR polling loop outcome) are supplied by the
environment, with one model branch per source branch. Event handlers fired
while waiting only remove entries for the same user (they never create a
lock), so their map effects are folded into the branch outcomes. -/

inductive ConnState
  | connecting | opened | authError | disconnected | timeout
  deriving DecidableEq, Repr

structure Conn where
  clientId : Nat
  qr : Option String
  isConnected : Bool
  connectionState : ConnState
  deriving DecidableEq, Repr

structure SvcState where
  connections : List (String × Conn)
  connectionAttempts : List String
  messageListenersSetup : List String
  disk : List String
  nextClientId : Nat
  deriving DecidableEq, Repr

def lookupConn (uid : String) (s : SvcState) : Option Conn :=
  (s.connections.find? (fun kv => kv.1 == uid)).map (fun kv => kv.2)

def removeConn (uid : String) (l : List (String × Conn)) : List (String × Conn) :=
  l.filter (fun kv => !(kv.1 == uid))

/-- `this.connections.set(userId, c)`. -/
def setConn (uid : String) (c : Conn) (s : SvcState) : SvcState :=
  { s with connections := (uid, c) :: removeConn uid s.connections }

/-- `this.connectionAttempts.delete(userId)`. -/
def releaseAttempt (uid : String) (s : SvcState) : SvcState :=
  { s with connectionAttempts := s.connectionAttempts.erase uid }

structure ConnResult where
  success : Bool
  message : String
  qr : Option String
  deriving DecidableEq, Repr

/-- `disconnect(userId)`: destroy the client and drop the connection, lock
and listener entries when a connection exists; otherwise report `false`. -/
def svcDisconnect (uid : String) (s : SvcState) : Bool × SvcState :=
  match lookupConn uid s with
  | some _ =>
    (true, { s with connections := removeConn uid s.connections,
                    connectionAttempts := s.connectionAttempts.erase uid,
                    messageListenersSetup := s.messageListenersSetup.erase uid })
  | none => (false, s)

/-- Outcome of variant 1's QR polling loop. -/
inductive QrWaitOutcome
  | gotQr (q : String) | becameConnected | noQr
  deriving DecidableEq, Repr

structure ConnEnv where
  reconnectThrows : Bool
  reconnectConnects : Bool
  stillConnecting : Bool
  qrAfterWait : Option String
  initThrows : Bool
  qrWait : QrWaitOutcome
  deriving DecidableEq, Repr

/-- Variant 1's fresh-session tail: purge stale on-disk artifacts, create a
new client handle, register it as `connecting`, `await client.initialize()`
(outer catch on throw), then poll for the QR; every return deletes the
attempt lock. -/
def freshClientV1 (uid : String) (env : ConnEnv) (s : SvcState) : ConnResult × SvcState :=
  let s1 : SvcState := { s with disk := s.disk.erase uid }
  let c : Conn := { clientId := s1.nextClientId, qr := none, isConnected := false,
                    connectionState := .connecting }
  let s2 : SvcState := { setConn uid c s1 with nextClientId := s1.nextClientId + 1 }
  if env.initThrows then
    ({ success := false, message := "Failed to create WhatsApp connection", qr := none },
     releaseAttempt uid s2)
  else
    match env.qrWait with
    | .gotQr q =>
      ({ success := true, message := "QR code generated. Please scan to connect.", qr := some q },
       releaseAttempt uid (setConn uid { c with qr := some q } s2))
    | .becameConnected =>
      ({ success := true, message := "WhatsApp connected successfully.", qr := none },
       releaseAttempt uid
         { setConn uid { c with isConnected := true, connectionState := .opened } s2 with
             messageListenersSetup := uid :: s2.messageListenersSetup })
    | .noQr =>
      ({ success := true, message := "Connection in progress. QR code may appear shortly.",
         qr := none },
       releaseAttempt uid s2)

/-- Variant 2's fresh-session tail: same through `client.initialize()`, then
returns immediately (QR is pushed over the socket); deletes the lock on both
returns. -/
def freshClientV2 (uid : String) (env : ConnEnv) (s : SvcState) : ConnResult × SvcState :=
  let s1 : SvcState := { s with disk := s.disk.erase uid }
  let c : Conn := { clientId := s1.nextClientId, qr := none, isConnected := false,
                    connectionState := .connecting }
  let s2 : SvcState := { setConn uid c s1 with nextClientId := s1.nextClientId + 1 }
  if env.initThrows then
    ({ success := false, message := "Failed to create WhatsApp connection", qr := none },
     releaseAttempt uid s2)
  else
    ({ success := true,
       message := "Connection initiated. QR code will appear shortly via WebSocket.",
       qr := none },
     releaseAttempt uid s2)

/-- `createConnection(userId)` (file variant 1): conflict check on the
attempt lock, lock acquisition, already-connected shortcut, auto-reconnect
attempt (its catch drops the stale connection), the `'connecting'`/QR-wait
shortcut, cleanup `disconnect` of a stale connection, then the fresh-session
tail. -/
def createConnection (uid : String) (env : ConnEnv) (s : SvcState) : ConnResult × SvcState :=
  if s.connectionAttempts.contains uid then
    ({ success := false, message := "Connection attempt already in progress", qr := none }, s)
  else
    let s1 : SvcState := { s with connectionAttempts := uid :: s.connectionAttempts }
    match lookupConn uid s1 with
    | some conn =>
      if conn.isConnected then
        ({ success := true, message := "WhatsApp already connected", qr := none },
         releaseAttempt uid s1)
      else if !env.reconnectThrows && env.reconnectConnects then
        ({ success := true, message := "WhatsApp reconnected successfully", qr := none },
         releaseAttempt uid s1)
      else
        let s2 : SvcState :=
          if env.reconnectThrows then { s1 with connections := removeConn uid s1.connections }
          else s1
        if env.stillConnecting then
          match env.qrAfterWait with
          | some q =>
            ({ success := true, message := "QR code already available", qr := some q },
             releaseAttempt uid s2)
          | none => freshClientV1 uid env (svcDisconnect uid s2).2
        else freshClientV1 uid env (svcDisconnect uid s2).2
    | none => freshClientV1 uid env s1

/-- `createConnection(userId)` (file variant 2): identical up to
`client.initialize()`, then returns without polling. -/
def createConnectionV2 (uid : String) (env : ConnEnv) (s : SvcState) : ConnResult × SvcState :=
  if s.connectionAttempts.contains uid then
    ({ success := false, message := "Connection attempt already in progress", qr := none }, s)
  else
    let s1 : SvcState := { s with connectionAttempts := uid :: s.connectionAttempts }
    match lookupConn uid s1 with
    | some conn =>
      if conn.isConnected then
        ({ success := true, message := "WhatsApp already connected", qr := none },
         releaseAttempt uid s1)
      else if !env.reconnectThrows && env.reconnectConnects then
        ({ success := true, message := "WhatsApp reconnected successfully", qr := none },
         releaseAttempt uid s1)
      else
        let s2 : SvcState :=
          if env.reconnectThrows then { s1 with connections := removeConn uid s1.connections }
          else s1
        if env.stillConnecting then
          match env.qrAfterWait with
          | some q =>
            ({ success := true, message := "QR code already available", qr := some q },
             releaseAttempt uid s2)
          | none => freshClientV2 uid env (svcDisconnect uid s2).2
        else freshClientV2 uid env (svcDisconnect uid s2).2
    | none => freshClientV2 uid env s1

theorem batches5_eq_nil_iff {α : Type} (l : List α) : batches5 l = [] ↔ l = [] := by
  induction l using batches5.induct <;> simp [batches5]

theorem batches5_flatten {α : Type} (l : List α) : (batches5 l).flatten = l := by
  induction l using batches5.induct <;> simp [batches5, *]

theorem batches5_dropLast_length {α : Type} (l : List α) :
    ∀ b ∈ (batches5 l).dropLast, b.length = 5 := by
  induction l using batches5.induct
  case case6 a b c d e rest ih =>
    intro bt hbt
    rw [batches5] at hbt
    rcases heq : batches5 rest with _ | ⟨b0, bs⟩
    · rw [heq] at hbt; simp at hbt
    · rw [heq] at hbt
      simp only [List.dropLast_cons_of_ne_nil (List.cons_ne_nil b0 bs), List.mem_cons] at hbt
      rcases hbt with h | h
      · simp [h]
      · exact ih bt (heq ▸ h)
  all_goals simp [batches5]

theorem batches5_mem_bound {α : Type} (l : List α) :
    ∀ b ∈ batches5 l, b ≠ [] ∧ b.length ≤ 5 := by
  induction l using batches5.induct
  case case6 a b c d e rest ih =>
    intro bt hbt
    rw [batches5] at hbt
    rcases List.mem_cons.mp hbt with h | h
    · simp [h]
    · exact ih bt h
  all_goals intro bt hbt
  all_goals simp [batches5] at hbt
  all_goals simp [hbt]

/-- C5: the send path's phone normalization is a pure total function that
strips non-digit characters and then, in order: passes through a string
already starting with the country code `91`; strips a leading `0` and
prefixes `91`; prefixes `91` to a 10-digit string; passes other lengths
through unchanged — and appends the `@c.us` suffix. In particular the three
concrete examples of the spec hold. -/
theorem normalizePhone_spec :
    normalizePhone "9876543210" = "919876543210@c.us" ∧
    normalizePhone "08765432109" = "918765432109@c.us" ∧
    normalizePhone "919876543210" = "919876543210@c.us" ∧
    (∀ s : String, normalizePhone s = formatNumber (stripNonDigits s) ++ "@c.us") ∧
    (∀ s : String, (stripNonDigits s).data = s.data.filter Char.isDigit) ∧
    (∀ d : String, d.data.take 2 = ['9', '1'] → formatNumber d = d) ∧
    (∀ d : String, d.data.take 2 ≠ ['9', '1'] → d.data.take 1 = ['0'] →
      formatNumber d = String.mk (['9', '1'] ++ d.data.drop 1)) ∧
    (∀ d : String, d.data.take 2 ≠ ['9', '1'] → d.data.take 1 ≠ ['0'] →
      d.data.length = 10 → formatNumber d = String.mk (['9', '1'] ++ d.data)) ∧
    (∀ d : String, d.data.take 2 ≠ ['9', '1'] → d.data.take 1 ≠ ['0'] →
      d.data.length ≠ 10 → formatNumber d = d) := by
  refine ⟨by decide, by decide, by decide, fun s => rfl, fun s => rfl,
    fun d h1 => ?_, fun d h1 h2 => ?_, fun d h1 h2 h3 => ?_, fun d h1 h2 h3 => ?_⟩
  · simp [formatNumber, h1]
  · simp [formatNumber, h1, h2]
  · simp [formatNumber, h1, h2, h3]
  · have h3' : ¬d.length = 10 := h3
    simp [formatNumber, h1, h2, h3, h3']

theorem normalizePhone_spec_witness :
    formatNumber "919876543210" = "919876543210" ∧
    formatNumber "08765432109" = String.mk (['9', '1'] ++ "08765432109".data.drop 1) ∧
    formatNumber "9876543210" = String.mk (['9', '1'] ++ "9876543210".data) ∧
    formatNumber "123456789012" = "123456789012" :=
  ⟨normalizePhone_spec.2.2.2.2.2.1 "919876543210" (by decide),
   normalizePhone_spec.2.2.2.2.2.2.1 "08765432109" (by decide) (by decide),
   normalizePhone_spec.2.2.2.2.2.2.2.1 "9876543210" (by decide) (by decide) (by decide),
   normalizePhone_spec.2.2.2.2.2.2.2.2 "123456789012" (by decide) (by decide) (by decide)⟩

/-- C6: `sendBulkMessages` partitions a non-empty contact list into
consecutive batches of size 5 in submission order (their concatenation is the
original list, every batch except possibly the last has exactly 5 elements,
every batch is non-empty with at most 5 elements, and at least one batch is
produced); a list of 12 contacts yields batch sizes `[5, 5, 2]`. -/
theorem sendBulkMessages_batching {α : Type} (contacts : List α)
    (hne : contacts ≠ []) :
    (batches5 contacts).flatten = contacts ∧
    (∀ b ∈ (batches5 contacts).dropLast, b.length = 5) ∧
    (∀ b ∈ batches5 contacts, b ≠ [] ∧ b.length ≤ 5) ∧
    batches5 contacts ≠ [] ∧
    (batches5 (List.range 12)).map List.length = [5, 5, 2] :=
  ⟨batches5_flatten contacts, batches5_dropLast_length contacts,
   batches5_mem_bound contacts,
   fun h => hne ((batches5_eq_nil_iff contacts).mp h), by decide⟩

theorem sendBulkMessages_batching_witness :
    (batches5 (List.range 12)).flatten = List.range 12 ∧
    (batches5 (List.range 12)).map List.length = [5, 5, 2] :=
  ⟨(sendBulkMessages_batching (List.range 12) (by decide)).1,
   (sendBulkMessages_batching (List.range 12) (by decide)).2.2.2.2⟩

theorem applyInc_total (p : Progress) (u : JobUpdate) : (applyInc p u).total = p.total := by
  cases u <;> rfl

theorem applyInc_pending (p : Progress) (u : JobUpdate) :
    (applyInc p u).pending = p.pending - 1 := by
  cases u <;> rfl

theorem applyInc_invariant (p : Progress) (u : JobUpdate) (h : progressInvariant p) :
    progressInvariant (applyInc p u) := by
  cases u <;> simp [progressInvariant, applyInc] at h ⊢ <;> omega

theorem processStep_progress (c : Campaign) (u : JobUpdate) (t : Nat) :
    (processStep c u t).progress = applyInc c.progress u := by
  rw [processStep]
  split <;> rfl

theorem runCampaignFrom_progress_invariant (us : List JobUpdate) :
    ∀ (t : Nat) (c : Campaign), progressInvariant c.progress →
      progressInvariant (runCampaignFrom t c us).progress := by
  induction us with
  | nil => intro t c h; exact h
  | cons u us ih =>
    intro t c h
    exact ih (t + 1) _ (by rw [processStep_progress]; exact applyInc_invariant _ _ h)

theorem runCampaignFrom_pending (us : List JobUpdate) :
    ∀ (t : Nat) (c : Campaign),
      (runCampaignFrom t c us).progress.pending = c.progress.pending - us.length := by
  induction us with
  | nil => intro t c; simp [runCampaignFrom]
  | cons u us ih =>
    intro t c
    rw [runCampaignFrom, ih, processStep_progress, applyInc_pending]
    simp
    omega

theorem processStep_status (c : Campaign) (u : JobUpdate) (t : Nat) :
    (processStep c u t).status = .completed ↔
      ((applyInc c.progress u).pending = 0 ∨ c.status = .completed) := by
  rw [processStep]
  split <;> simp_all

theorem runCampaignFrom_status (us : List JobUpdate) :
    ∀ (t : Nat) (c : Campaign),
      (runCampaignFrom t c us).status = .completed ↔
        (c.status = .completed ∨ 1 ≤ completions c.progress us) := by
  induction us with
  | nil => intro t c; simp [runCampaignFrom, completions]
  | cons u us ih =>
    intro t c
    rw [runCampaignFrom, ih, processStep_status, completions, processStep_progress]
    by_cases h : (applyInc c.progress u).pending = 0 <;> simp [h]

theorem runCampaignFrom_completedAt (us : List JobUpdate) :
    ∀ (t : Nat) (c : Campaign),
      (c.status = .completed → c.completedAt ≠ none) →
      (runCampaignFrom t c us).status = .completed →
        (runCampaignFrom t c us).completedAt ≠ none := by
  induction us with
  | nil => intro t c h; exact h
  | cons u us ih =>
    intro t c h
    refine ih (t + 1) _ ?_
    rw [processStep]
    split
    · intro _; simp
    · exact h

theorem completions_eq (us : List JobUpdate) :
    ∀ p : Progress,
      completions p us = if 0 < p.pending ∧ p.pending ≤ (us.length : Int) then 1 else 0 := by
  induction us with
  | nil =>
    intro p
    simp only [completions, List.length_nil, Nat.cast_zero]
    split <;> omega
  | cons u us ih =>
    intro p
    rw [completions, ih, applyInc_pending]
    simp only [List.length_cons, Nat.cast_add, Nat.cast_one]
    split <;> split <;> split <;> omega

/-- C1: for every bulk campaign, `progress.sent + progress.failed +
progress.pending = progress.total` holds at campaign creation and after any
serialized trace of per-job progress updates (success, failure, or
worker-level error — each a balanced `$inc` — hence also across retries of a
failed delivery job, which merely contribute further `incFailed`/`incSent`
updates to the trace). -/
theorem campaign_progress_invariant (numContacts : Nat) (updates : List JobUpdate) :
    progressInvariant (newBulkMessage numContacts).progress ∧
    progressInvariant (runCampaign (newBulkMessage numContacts) updates).progress := by
  constructor
  · simp [newBulkMessage, progressInvariant]
  · exact runCampaignFrom_progress_invariant updates 0 _ (by simp [newBulkMessage, progressInvariant])

/-- C2: after any serialized trace of progress updates, the campaign status
is `completed` iff some update of the trace left `pending` at 0; whenever it
is `completed` a `completedAt` timestamp is set; and the completed-transition
fires at most once per campaign — in every serialized interleaving of
concurrent job completions exactly the single update whose atomic `$inc`
returns `pending = 0` performs it. -/
theorem campaign_completed_iff (numContacts : Nat) (updates : List JobUpdate) :
    ((runCampaign (newBulkMessage numContacts) updates).status = .completed ↔
      ∃ k < updates.length,
        (runCampaign (newBulkMessage numContacts) (updates.take (k + 1))).progress.pending = 0) ∧
    ((runCampaign (newBulkMessage numContacts) updates).status = .completed →
      (runCampaign (newBulkMessage numContacts) updates).completedAt ≠ none) ∧
    completions (newBulkMessage numContacts).progress updates ≤ 1 ∧
    (completions (newBulkMessage numContacts).progress updates = 1 ↔
      (runCampaign (newBulkMessage numContacts) updates).status = .completed) := by
  have hpend : ∀ us : List JobUpdate,
      (runCampaign (newBulkMessage numContacts) us).progress.pending
        = (numContacts : Int) - us.length := by
    intro us
    rw [runCampaign, runCampaignFrom_pending]
    simp [newBulkMessage]
  have hstat : (runCampaign (newBulkMessage numContacts) updates).status = .completed ↔
      (0 < numContacts ∧ numContacts ≤ updates.length) := by
    rw [runCampaign, runCampaignFrom_status, completions_eq]
    simp only [newBulkMessage]
    simp
    split <;> omega
  refine ⟨?_, ?_, ?_, ?_⟩
  · rw [hstat]
    constructor
    · intro ⟨h1, h2⟩
      refine ⟨numContacts - 1, by omega, ?_⟩
      rw [hpend]
      simp
      omega
    · intro ⟨k, hk, hp⟩
      rw [hpend] at hp
      simp at hp
      omega
  · exact runCampaignFrom_completedAt updates 0 _ (by simp [newBulkMessage])
  · rw [completions_eq]
    split <;> omega
  · rw [completions_eq, hstat]
    simp only [newBulkMessage]
    simp

theorem campaign_completed_iff_witness :
    (runCampaign (newBulkMessage 2) [JobUpdate.incSent, JobUpdate.incFailed]).status
        = CampaignStatus.completed ∧
    (runCampaign (newBulkMessage 2) [JobUpdate.incSent, JobUpdate.incFailed]).completedAt
        ≠ none ∧
    completions (newBulkMessage 2).progress [JobUpdate.incSent, JobUpdate.incFailed] = 1 := by
  have h := campaign_completed_iff 2 [JobUpdate.incSent, JobUpdate.incFailed]
  have hc : (runCampaign (newBulkMessage 2) [JobUpdate.incSent, JobUpdate.incFailed]).status
      = CampaignStatus.completed := h.1.mpr ⟨1, by decide, by decide⟩
  exact ⟨hc, h.2.1 hc, h.2.2.2.mpr hc⟩

/-- C7: `savePendingMessage` is idempotent on `(userId, messageId)`: a call
finding an existing pending/processing record for the pair leaves the
collection untouched, and two successive calls with the same pair on a
collection with no such record leave exactly one pending/processing record
for the pair. -/
theorem savePendingMessage_idempotent (uid phone1 msg1 phone2 msg2 m : String)
    (t1 t2 id1 id2 : Nat) (db : List PendingMsg)
    (h : db.countP (isDupPending uid m) = 0) :
    (∀ db' : List PendingMsg, db'.any (isDupPending uid m) = true →
      (savePendingMessage uid phone2 msg2 (some m) t2 id2 db').2 = db') ∧
    ((savePendingMessage uid phone2 msg2 (some m) t2 id2
        (savePendingMessage uid phone1 msg1 (some m) t1 id1 db).2).2.countP
          (isDupPending uid m) = 1) := by
  constructor
  · intro db' hdup
    simp [savePendingMessage, hdup]
  · have hnone : db.any (isDupPending uid m) = false := by
      rw [List.any_eq_false]
      intro r hr
      have := List.countP_eq_zero.mp h r hr
      simpa using this
    have hrec : isDupPending uid m (savedRec uid phone1 msg1 (some m) t1 id1) = true := by
      simp [isDupPending, savedRec]
    have hinner : (savePendingMessage uid phone1 msg1 (some m) t1 id1 db).2
        = db ++ [savedRec uid phone1 msg1 (some m) t1 id1] := by
      rw [savePendingMessage]
      simp [hnone]
    have hany2 : (db ++ [savedRec uid phone1 msg1 (some m) t1 id1]).any
        (isDupPending uid m) = true := by
      simp [List.any_append, hrec]
    have houter : (savePendingMessage uid phone2 msg2 (some m) t2 id2
        (db ++ [savedRec uid phone1 msg1 (some m) t1 id1])).2
        = db ++ [savedRec uid phone1 msg1 (some m) t1 id1] := by
      rw [savePendingMessage]
      simp [hany2]
    rw [hinner, houter, List.countP_append, h]
    simp [List.countP_cons, hrec]

theorem savePendingMessage_idempotent_witness :
    ([] : List PendingMsg).countP (isDupPending "u1" "mid1") = 0 ∧
    ((savePendingMessage "u1" "p" "hello" (some "mid1") 1 11
        (savePendingMessage "u1" "p" "hello" (some "mid1") 0 10 []).2).2.countP
          (isDupPending "u1" "mid1") = 1) :=
  ⟨by decide,
   (savePendingMessage_idempotent "u1" "p" "hello" "p" "hello" "mid1" 0 1 10 11 []
      (by decide)).2⟩

/-- C8: a `processPendingMessages` call finding the per-tenant
`recoveryInProgress` flag set returns the zero result and changes nothing:
no flag, no pending-message record, nothing. -/
theorem processPending_reentrant (uid : String) (env : RecoveryEnv) (st : RecoveryState)
    (h : st.flags.contains uid = true) :
    processPendingMessages uid env st
      = { result := ⟨0, 0, 0, 0, []⟩, state := st, trace := [], recs := [] } := by
  rw [processPendingMessages]
  simp [h, emptyResult]
  intro hmem
  exact absurd (by simpa using h) hmem

theorem processPending_reentrant_witness :
    processPendingMessages "u1" ⟨fun _ => MsgOutcome.ok false false, false⟩ ⟨["u1"], sampleDb⟩
      = { result := ⟨0, 0, 0, 0, []⟩, state := ⟨["u1"], sampleDb⟩, trace := [], recs := [] } :=
  processPending_reentrant "u1" _ _ (by decide)

/-- C10: a `processPendingMessages` call that finds the flag clear (and hence
sets it) has cleared it again when it returns — on the normal path, the
no-pending path, and the internal-error (`findThrows`) path alike — so a
failed run never blocks later recovery attempts. -/
theorem processPending_clears_flag (uid : String) (env : RecoveryEnv) (st : RecoveryState)
    (h : st.flags.contains uid = false) :
    (processPendingMessages uid env st).state.flags = st.flags ∧
    (processPendingMessages uid env st).state.flags.contains uid = false := by
  have herase : (uid :: st.flags).erase uid = st.flags := List.erase_cons_head uid st.flags
  have hmain : (processPendingMessages uid env st).state.flags = st.flags := by
    rw [processPendingMessages]
    simp only [h, Bool.false_eq_true, if_false]
    split
    · simp [herase]
    · split
      · simp [herase]
      · simp [herase]
  exact ⟨hmain, by rw [hmain]; exact h⟩

theorem processPending_clears_flag_witness :
    (processPendingMessages "u1" ⟨fun _ => MsgOutcome.ok false false, true⟩
        ⟨[], sampleDb⟩).state.flags = [] ∧
    (processPendingMessages "u1" ⟨fun _ => MsgOutcome.ok false false, true⟩
        ⟨[], sampleDb⟩).state.flags.contains "u1" = false :=
  processPending_clears_flag "u1" _ _ (by decide)

theorem stepMsg_trace_recs (env : RecoveryEnv) (acc : RunAcc) (m : PendingMsg) :
    (stepMsg env acc m).trace = acc.trace ++ [m] ∧
    (stepMsg env acc m).recs = acc.recs ++ [finalRecord env m] := by
  cases h : env.outcome m.pmId <;> simp [stepMsg, finalRecord, h]

theorem foldl_stepMsg_spec (env : RecoveryEnv) (msgs : List PendingMsg) :
    ∀ acc : RunAcc,
      (msgs.foldl (stepMsg env) acc).trace = acc.trace ++ msgs ∧
      (msgs.foldl (stepMsg env) acc).recs = acc.recs ++ msgs.map (finalRecord env) := by
  induction msgs with
  | nil => intro acc; simp
  | cons m ms ih =>
    intro acc
    rw [List.foldl_cons]
    rcases ih (stepMsg env acc m) with ⟨h1, h2⟩
    rcases stepMsg_trace_recs env acc m with ⟨g1, g2⟩
    exact ⟨by rw [h1, g1]; simp, by rw [h2, g2]; simp⟩

theorem foldl_groups_spec (env : RecoveryEnv) (pending : List PendingMsg) (keys : List String) :
    ∀ acc : RunAcc,
      ((keys.foldl (fun a p => (groupOf p pending).foldl (stepMsg env) a) acc).trace
        = acc.trace ++ keys.flatMap (fun p => groupOf p pending)) ∧
      ((keys.foldl (fun a p => (groupOf p pending).foldl (stepMsg env) a) acc).recs
        = acc.recs ++ (keys.flatMap (fun p => groupOf p pending)).map (finalRecord env)) := by
  induction keys with
  | nil => intro acc; simp
  | cons p ks ih =>
    intro acc
    rw [List.foldl_cons]
    rcases ih ((groupOf p pending).foldl (stepMsg env) acc) with ⟨h1, h2⟩
    rcases foldl_stepMsg_spec env (groupOf p pending) acc with ⟨g1, g2⟩
    constructor
    · rw [h1, g1, List.flatMap_cons]; simp
    · rw [h2, g2, List.flatMap_cons]; simp

theorem processAllGroups_spec (env : RecoveryEnv) (pending : List PendingMsg) :
    (processAllGroups env pending).trace
      = (uniqueKeys (pending.map (fun r => r.phoneNumber))).flatMap
          (fun p => groupOf p pending) ∧
    (processAllGroups env pending).recs
      = ((uniqueKeys (pending.map (fun r => r.phoneNumber))).flatMap
          (fun p => groupOf p pending)).map (finalRecord env) := by
  rw [processAllGroups]
  rcases foldl_groups_spec env pending
      (uniqueKeys (pending.map (fun r => r.phoneNumber))) initAcc with ⟨h1, h2⟩
  exact ⟨by rw [h1]; simp [initAcc], by rw [h2]; simp [initAcc]⟩

theorem insertLe_perm (m : PendingMsg) (l : List PendingMsg) :
    (insertLe m l).Perm (m :: l) := by
  induction l with
  | nil => simp [insertLe]
  | cons x xs ih =>
    rw [insertLe]
    split
    · exact (ih.cons x).trans (List.Perm.swap m x xs)
    · exact List.Perm.refl _

theorem insertLe_pairwise (m : PendingMsg) (l : List PendingMsg)
    (h : l.Pairwise (fun a b => a.receivedAt ≤ b.receivedAt)) :
    (insertLe m l).Pairwise (fun a b => a.receivedAt ≤ b.receivedAt) := by
  induction l with
  | nil => simp [insertLe]
  | cons x xs ih =>
    rw [List.pairwise_cons] at h
    obtain ⟨hx, hxs⟩ := h
    rw [insertLe]
    split
    · rename_i hle
      rw [List.pairwise_cons]
      refine ⟨fun y hy => ?_, ih hxs⟩
      rcases List.mem_cons.mp ((insertLe_perm m xs).mem_iff.mp hy) with rfl | hmem
      · exact hle
      · exact hx y hmem
    · rename_i hgt
      rw [List.pairwise_cons]
      refine ⟨fun y hy => ?_, List.pairwise_cons.mpr ⟨hx, hxs⟩⟩
      rcases List.mem_cons.mp hy with rfl | hmem
      · omega
      · have := hx y hmem; omega

theorem sortByReceivedAt_perm (l : List PendingMsg) : (sortByReceivedAt l).Perm l := by
  induction l with
  | nil => simp [sortByReceivedAt]
  | cons x xs ih =>
    rw [sortByReceivedAt]
    exact (insertLe_perm x (sortByReceivedAt xs)).trans (ih.cons x)

theorem sortByReceivedAt_pairwise (l : List PendingMsg) :
    (sortByReceivedAt l).Pairwise (fun a b => a.receivedAt ≤ b.receivedAt) := by
  induction l with
  | nil => simp [sortByReceivedAt]
  | cons x xs ih => exact insertLe_pairwise x _ ih

theorem uniqueKeysGo_mem (l : List String) :
    ∀ (seen : List String) (x : String), x ∈ uniqueKeysGo seen l →
      x ∈ l ∧ seen.contains x = false := by
  induction l with
  | nil => intro seen x hx; simp [uniqueKeysGo] at hx
  | cons y ys ih =>
    intro seen x hx
    rw [uniqueKeysGo] at hx
    split at hx
    · rcases ih seen x hx with ⟨h1, h2⟩
      exact ⟨List.mem_cons_of_mem y h1, h2⟩
    · rename_i hns
      rcases List.mem_cons.mp hx with rfl | hmem
      · exact ⟨List.mem_cons_self x ys, by simpa using hns⟩
      · rcases ih (y :: seen) x hmem with ⟨h1, h2⟩
        refine ⟨List.mem_cons_of_mem y h1, ?_⟩
        rw [List.contains_cons, Bool.or_eq_false_iff] at h2
        exact h2.2

theorem uniqueKeysGo_nodup (l : List String) :
    ∀ seen : List String, (uniqueKeysGo seen l).Nodup := by
  induction l with
  | nil => intro seen; simp [uniqueKeysGo]
  | cons y ys ih =>
    intro seen
    rw [uniqueKeysGo]
    split
    · exact ih seen
    · rw [List.nodup_cons]
      refine ⟨fun hy => ?_, ih (y :: seen)⟩
      rcases uniqueKeysGo_mem ys (y :: seen) y hy with ⟨_, h2⟩
      rw [List.contains_cons, Bool.or_eq_false_iff] at h2
      simpa using h2.1

theorem uniqueKeysGo_complete (l : List String) :
    ∀ (seen : List String) (x : String), x ∈ l → seen.contains x = false →
      x ∈ uniqueKeysGo seen l := by
  induction l with
  | nil => intro seen x hx; simp at hx
  | cons y ys ih =>
    intro seen x hx hns
    rw [uniqueKeysGo]
    split
    · rename_i hcy
      rcases List.mem_cons.mp hx with rfl | hmem
      · rw [hns] at hcy; simp at hcy
      · exact ih seen x hmem hns
    · rename_i hcy
      rcases List.mem_cons.mp hx with rfl | hmem
      · exact List.mem_cons_self _ _
      · by_cases hxy : x = y
        · exact hxy ▸ List.mem_cons_self _ _
        · refine List.mem_cons_of_mem y (ih (y :: seen) x hmem ?_)
          rw [List.contains_cons, Bool.or_eq_false_iff]
          exact ⟨by simpa using hxy, hns⟩

theorem flatMap_congr_mem {α β : Type} (l : List α) (f g : α → List β)
    (h : ∀ x ∈ l, f x = g x) : l.flatMap f = l.flatMap g := by
  induction l with
  | nil => rfl
  | cons x xs ih =>
    rw [List.flatMap_cons, List.flatMap_cons, h x (List.mem_cons_self x xs),
      ih (fun y hy => h y (List.mem_cons_of_mem x hy))]

theorem groups_perm (keys : List String) :
    ∀ l : List PendingMsg, keys.Nodup →
      (∀ x ∈ l, x.phoneNumber ∈ keys) →
      (keys.flatMap (fun p => groupOf p l)).Perm l := by
  induction keys with
  | nil =>
    intro l _ hcov
    have hl : l = [] := List.eq_nil_iff_forall_not_mem.mpr (fun a ha => by simpa using hcov a ha)
    simp [hl]
  | cons p ks ih =>
    intro l hnd hcov
    rw [List.nodup_cons] at hnd
    obtain ⟨hp, hks⟩ := hnd
    rw [List.flatMap_cons]
    have hgq : ∀ q ∈ ks,
        groupOf q l = groupOf q (l.filter (fun r => !(r.phoneNumber == p))) := by
      intro q hq
      have hqp : q ≠ p := fun hqe => hp (hqe ▸ hq)
      rw [groupOf, groupOf, List.filter_filter]
      apply List.filter_congr
      intro a _
      by_cases haq : a.phoneNumber = q
      · simp [haq]
        exact hqp
      · simp [haq]
    rw [flatMap_congr_mem ks _ _ hgq]
    have hcov' : ∀ x ∈ l.filter (fun r => !(r.phoneNumber == p)), x.phoneNumber ∈ ks := by
      intro x hx
      rw [List.mem_filter] at hx
      obtain ⟨hxl, hxp⟩ := hx
      rcases List.mem_cons.mp (hcov x hxl) with heq | hmem
      · rw [heq] at hxp; simp at hxp
      · exact hmem
    have hperm := ih (l.filter (fun r => !(r.phoneNumber == p))) hks hcov'
    refine List.Perm.trans (List.Perm.append_left (groupOf p l) hperm) ?_
    rw [groupOf]
    exact List.filter_append_perm _ l

theorem flatMap_filter_single (l : List PendingMsg) (pph : String) :
    ∀ keys : List String, keys.Nodup →
      ((keys.flatMap (fun q => groupOf q l)).filter (fun m => m.phoneNumber == pph))
        = if keys.contains pph then groupOf pph l else [] := by
  intro keys
  induction keys with
  | nil => intro _; simp
  | cons q ks ih =>
    intro hnd
    rw [List.nodup_cons] at hnd
    obtain ⟨hq, hks⟩ := hnd
    rw [List.flatMap_cons, List.filter_append, ih hks]
    by_cases hqp : q = pph
    · subst hqp
      have h1 : (groupOf q l).filter (fun m => m.phoneNumber == q) = groupOf q l := by
        apply List.filter_eq_self.mpr
        intro a ha
        exact (List.mem_filter.mp ha).2
      have h2 : ks.contains q = false := by
        by_contra hc
        exact hq (by simpa using hc)
      rw [h1, h2]
      simp
    · have h1 : (groupOf q l).filter (fun m => m.phoneNumber == pph) = [] := by
        rw [List.filter_eq_nil_iff]
        intro a ha
        have := (List.mem_filter.mp ha).2
        simp at this ⊢
        rw [this]
        exact hqp
      have h2 : (q :: ks).contains pph = ks.contains pph := by
        rw [List.contains_cons]
        have : (pph == q) = false := by
          simp
          exact fun hpe => hqp hpe.symm
        simp [this]
      rw [h1, h2]
      simp

theorem ppm_trace_recs (uid : String) (env : RecoveryEnv) (st : RecoveryState)
    (hflag : st.flags.contains uid = false) (hnf : env.findThrows = false) :
    (processPendingMessages uid env st).trace
      = (processAllGroups env (sortByReceivedAt (pendingFor uid st.db))).trace ∧
    (processPendingMessages uid env st).recs
      = (processAllGroups env (sortByReceivedAt (pendingFor uid st.db))).recs := by
  rw [processPendingMessages]
  simp only [hflag, hnf, Bool.false_eq_true, if_false]
  split
  · rename_i hzero
    have hnil : sortByReceivedAt (pendingFor uid st.db) = [] := List.length_eq_zero.mp hzero
    rw [hnil]
    simp [processAllGroups, uniqueKeys, uniqueKeysGo, initAcc]
  · exact ⟨rfl, rfl⟩

/-- C9: for every tenant, `processPendingMessages` routes the pending
messages of each phone number through the auto-reply pipeline in
non-decreasing `receivedAt` order, routes every pending message of the
tenant exactly once (the routed trace is a permutation of the tenant's
pending records, so a failure on one message does not prevent the later
messages of its group from being processed), and saves for each routed
message the record determined by its own outcome: `failed` with the error
captured when its processing throws, `processed` otherwise. -/
theorem processPending_phone_order (uid : String) (env : RecoveryEnv) (st : RecoveryState)
    (hflag : st.flags.contains uid = false) (hnf : env.findThrows = false) :
    (∀ p : String,
      ((processPendingMessages uid env st).trace.filter
          (fun m => m.phoneNumber == p)).Pairwise (fun a b => a.receivedAt ≤ b.receivedAt)) ∧
    ((processPendingMessages uid env st).trace.Perm (pendingFor uid st.db)) ∧
    ((processPendingMessages uid env st).recs
        = (processPendingMessages uid env st).trace.map (finalRecord env)) ∧
    (∀ (m : PendingMsg) (e : String), env.outcome m.pmId = MsgOutcome.procError e →
      (finalRecord env m).status = PMStatus.failed ∧
        (finalRecord env m).errorMessage = some e) ∧
    (∀ (m : PendingMsg) (sr so : Bool), env.outcome m.pmId = MsgOutcome.ok sr so →
      (finalRecord env m).status = PMStatus.processed) := by
  obtain ⟨htr, hrc⟩ := ppm_trace_recs uid env st hflag hnf
  obtain ⟨hgt, hgr⟩ := processAllGroups_spec env (sortByReceivedAt (pendingFor uid st.db))
  have hnd : (uniqueKeys ((sortByReceivedAt (pendingFor uid st.db)).map
      (fun r => r.phoneNumber))).Nodup := uniqueKeysGo_nodup _ []
  refine ⟨?_, ?_, ?_, ?_, ?_⟩
  · intro p
    rw [htr, hgt, flatMap_filter_single _ p _ hnd]
    split
    · exact List.Pairwise.sublist (List.filter_sublist _) (sortByReceivedAt_pairwise _)
    · exact List.Pairwise.nil
  · rw [htr, hgt]
    have hcov : ∀ x ∈ sortByReceivedAt (pendingFor uid st.db),
        x.phoneNumber ∈ uniqueKeys ((sortByReceivedAt (pendingFor uid st.db)).map
          (fun r => r.phoneNumber)) := by
      intro x hx
      exact uniqueKeysGo_complete _ [] _ (List.mem_map_of_mem _ hx) rfl
    exact (groups_perm _ _ hnd hcov).trans (sortByReceivedAt_perm _)
  · rw [htr, hrc, hgt, hgr]
  · intro m e he
    simp [finalRecord, he]
  · intro m sr so he
    simp [finalRecord, he]

theorem freshClientV1_attempts (uid : String) (env : ConnEnv) (t : SvcState) :
    (freshClientV1 uid env t).2.connectionAttempts = t.connectionAttempts.erase uid := by
  rw [freshClientV1]
  split
  · simp [releaseAttempt, setConn]
  · split <;> simp [releaseAttempt, setConn]

theorem freshClientV2_attempts (uid : String) (env : ConnEnv) (t : SvcState) :
    (freshClientV2 uid env t).2.connectionAttempts = t.connectionAttempts.erase uid := by
  rw [freshClientV2]
  split <;> simp [releaseAttempt, setConn]

theorem svcDisconnect_attempts (uid : String) (t : SvcState) :
    (svcDisconnect uid t).2.connectionAttempts = t.connectionAttempts.erase uid ∨
    (svcDisconnect uid t).2.connectionAttempts = t.connectionAttempts := by
  rw [svcDisconnect]
  split
  · left; rfl
  · right; rfl

theorem not_mem_erase_self {uid : String} {l : List String} (h : uid ∉ l) :
    (l.erase uid).contains uid = false := by
  rw [Bool.eq_false_iff]
  intro hc
  exact h (List.mem_of_mem_erase (by simpa using hc))

theorem contains_after_fresh_disc_v1 (uid : String) (env : ConnEnv) (t : SvcState)
    (sa : List String) (ht : t.connectionAttempts = uid :: sa) (hmem : uid ∉ sa) :
    (freshClientV1 uid env (svcDisconnect uid t).2).2.connectionAttempts.contains uid = false := by
  rw [freshClientV1_attempts]
  rcases svcDisconnect_attempts uid t with hd | hd
  · rw [hd, ht, List.erase_cons_head]
    exact not_mem_erase_self hmem
  · rw [hd, ht, List.erase_cons_head]
    simpa using hmem

theorem contains_after_fresh_disc_v2 (uid : String) (env : ConnEnv) (t : SvcState)
    (sa : List String) (ht : t.connectionAttempts = uid :: sa) (hmem : uid ∉ sa) :
    (freshClientV2 uid env (svcDisconnect uid t).2).2.connectionAttempts.contains uid = false := by
  rw [freshClientV2_attempts]
  rcases svcDisconnect_attempts uid t with hd | hd
  · rw [hd, ht, List.erase_cons_head]
    exact not_mem_erase_self hmem
  · rw [hd, ht, List.erase_cons_head]
    simpa using hmem

/-- C3: while a connect attempt for a tenant is in flight (the attempt lock
is held), a second `createConnection` call — in either file variant —
returns `success = false` with the "already in progress" message and leaves
the whole service state untouched: no new transport handle (handle counter
unchanged), no registry, lock, listener or on-disk change. -/
theorem createConnection_conflict (uid : String) (env : ConnEnv) (s : SvcState)
    (h : s.connectionAttempts.contains uid = true) :
    createConnection uid env s
      = ({ success := false, message := "Connection attempt already in progress", qr := none },
         s) ∧
    createConnectionV2 uid env s
      = ({ success := false, message := "Connection attempt already in progress", qr := none },
         s) := by
  constructor
  · rw [createConnection, if_pos h]
  · rw [createConnectionV2, if_pos h]

theorem createConnection_conflict_witness :
    createConnection "u1" ⟨false, false, false, none, false, QrWaitOutcome.noQr⟩
        ⟨[], ["u1"], [], ["u1"], 7⟩
      = ({ success := false, message := "Connection attempt already in progress", qr := none },
         ⟨[], ["u1"], [], ["u1"], 7⟩) :=
  (createConnection_conflict "u1" _ _ (by decide)).1

/-- C4: a `createConnection` call that acquires the attempt lock (the lock
was not held when it started) has released it on every return path — the
already-connected shortcut, the auto-reconnect success, the QR-wait
shortcut, the fresh-session tail in all its outcomes (QR produced,
connected, still pending), and the thrown-initialize error path — in both
file variants. -/
theorem createConnection_releases_lock (uid : String) (env : ConnEnv) (s : SvcState)
    (h : s.connectionAttempts.contains uid = false) :
    (createConnection uid env s).2.connectionAttempts.contains uid = false ∧
    (createConnectionV2 uid env s).2.connectionAttempts.contains uid = false := by
  have hmem : uid ∉ s.connectionAttempts := by simpa using h
  constructor
  · rw [createConnection]
    simp only [h, Bool.false_eq_true, if_false]
    split
    · split
      · simp [releaseAttempt, List.erase_cons_head]
        exact hmem
      · split
        · simp [releaseAttempt, List.erase_cons_head]
          exact hmem
        · split
          · split
            · simp [releaseAttempt]
              split <;> simp [List.erase_cons_head] <;> exact hmem
            · exact contains_after_fresh_disc_v1 uid env _ s.connectionAttempts
                (by split <;> rfl) hmem
          · exact contains_after_fresh_disc_v1 uid env _ s.connectionAttempts
              (by split <;> rfl) hmem
    · rw [freshClientV1_attempts, List.erase_cons_head]
      exact h
  · rw [createConnectionV2]
    simp only [h, Bool.false_eq_true, if_false]
    split
    · split
      · simp [releaseAttempt, List.erase_cons_head]
        exact hmem
      · split
        · simp [releaseAttempt, List.erase_cons_head]
          exact hmem
        · split
          · split
            · simp [releaseAttempt]
              split <;> simp [List.erase_cons_head] <;> exact hmem
            · exact contains_after_fresh_disc_v2 uid env _ s.connectionAttempts
                (by split <;> rfl) hmem
          · exact contains_after_fresh_disc_v2 uid env _ s.connectionAttempts
              (by split <;> rfl) hmem
    · rw [freshClientV2_attempts, List.erase_cons_head]
      exact h

theorem createConnection_releases_lock_witness :
    (createConnection "u1" ⟨false, false, false, none, true, QrWaitOutcome.noQr⟩
        ⟨[], [], [], ["u1"], 0⟩).2.connectionAttempts.contains "u1" = false ∧
    (createConnectionV2 "u1" ⟨false, false, false, none, true, QrWaitOutcome.noQr⟩
        ⟨[], [], [], ["u1"], 0⟩).2.connectionAttempts.contains "u1" = false :=
  createConnection_releases_lock "u1" _ _ (by decide)

theorem processPending_phone_order_witness :
    (((processPendingMessages "u1" sampleEnv ⟨[], sampleDb⟩).trace.filter
        (fun m => m.phoneNumber == "p1")).Pairwise
          (fun a b => a.receivedAt ≤ b.receivedAt)) ∧
    ((processPendingMessages "u1" sampleEnv ⟨[], sampleDb⟩).trace.Perm
        (pendingFor "u1" sampleDb)) ∧
    ((processPendingMessages "u1" sampleEnv ⟨[], sampleDb⟩).recs
        = (processPendingMessages "u1" sampleEnv ⟨[], sampleDb⟩).trace.map
            (finalRecord sampleEnv)) ∧
    ((finalRecord sampleEnv (mkPending 1 "u1" "p1" "a" 1)).status = PMStatus.failed ∧
      (finalRecord sampleEnv (mkPending 1 "u1" "p1" "a" 1)).errorMessage = some "boom") ∧
    (finalRecord sampleEnv (mkPending 3 "u1" "p1" "c" 3)).status = PMStatus.processed := by
  have h := processPending_phone_order "u1" sampleEnv ⟨[], sampleDb⟩ (by decide) (by decide)
  exact ⟨h.1 "p1", h.2.1, h.2.2.1,
    h.2.2.2.1 (mkPending 1 "u1" "p1" "a" 1) "boom" (by decide),
    h.2.2.2.2 (mkPending 3 "u1" "p1" "c" 3) true true (by decide)⟩

end WB
